import Mathlib

/-!
Verification of the RS-FEC packet filter core of this repository.

The development shallowly embeds, in Lean, the pieces of the code that the
checked properties talk about:

* the GF(256) table arithmetic and the Reed-Solomon routines `rs_generator_poly`,
  `rs_encode2`, `rs_decode2` of `src/unnamed/part_009`;
* the `RSFecFilter` send/receive state machines of `src/srtcore/rsfec.cpp`
  and the pimpl variant of `src/unnamed/part_008`;
* the `FECReedSolomon` receiver bookkeeping of `src/srtcore/fec_rs.cpp`
  (first version in the file) with its `cleanupOldGroups`;
* the configuration checks `RSFecFilter::verifyConfig` and
  `FECReedSolomon::verifyConfig` and the declared ARQ levels.

Bytes are modelled as `Nat` (all stored values stay below 256 because the
source operates on `unsigned char`).  Sequence numbers are modelled as `Int`
with `CSeqNo::seqoff a b = b - a` and `CSeqNo::incseq a d = a + d`; the 2^31
wraparound of `CSeqNo` is elided, none of the checked claims concerns wrap.
The external libfec routines `encode_rs_char` / `decode_rs_char` declared in
`/usr/include/fec.h` are not part of this repository; models that call them
take the column coder as an explicit function parameter.
-/

namespace RsFec

/-! ## GF(256) tables, from src/unnamed/part_009 (gf_init, gf_mul)

`gf_init` fills `gf_exp[i]` for `i < 255` with the successive values of the
iteration `x := x << 1; if x & 0x100 then x ^= 0x11d` starting from 1, and
duplicates the table so that `gf_exp[i] = gf_exp[i mod 255]` at every index
the code ever reads.  `gf_log` is the inverse table; the C array is static
storage, hence `gf_log[0] = 0` (never written, zero initialised). -/

def GF_POLY : Nat := 0x11d

/-- One step of the table-filling iteration of `gf_init`. -/
def gfStep (x : Nat) : Nat :=
  let y := x <<< 1
  if y &&& 0x100 ≠ 0 then y ^^^ GF_POLY else y

/-- The value the `gf_init` loop stores in `gf_exp[i]` for `i < 255`. -/
def gfExpPow (i : Nat) : Nat := Nat.iterate gfStep i 1

/-- The `gf_exp` table lookup.  The duplication loop of `gf_init` makes
`gf_exp[i] = gf_exp[i mod 255]` for every index `i < 512` the code reads. -/
def gf_exp (i : Nat) : Nat := gfExpPow (i % 255)

/-- The `gf_log` table lookup: the unique `i < 255` with `gf_exp[i] = v`
(first match of the filling loop); `gf_log[0]` stays 0 (static storage). -/
def gf_log (v : Nat) : Nat :=
  (((List.range 255).find? (fun i => gfExpPow i = v)).getD 0)

/-- Model of `gf_mul` of src/unnamed/part_009. -/
def gf_mul (a b : Nat) : Nat :=
  if a = 0 || b = 0 then 0 else gf_exp (gf_log a + gf_log b)

/-! ## rs_generator_poly, from src/unnamed/part_009 -/

/-- The inner `for (j = nsym; j > 0; j--)` loop of `rs_generator_poly`,
followed by the `g[0] = gf_mul(g[0], gf_exp[i])` update; `e = gf_exp[i]`. -/
def rsGenInner (e : Nat) : Nat → List Nat → List Nat
  | 0, g => g.set 0 (gf_mul (g.getD 0 0) e)
  | j + 1, g => rsGenInner e j (g.set (j + 1) ((g.getD j 0) ^^^ gf_mul (g.getD (j + 1) 0) e))

/-- Model of `rs_generator_poly(nsym)`: coefficients of
`g(x) = prod_(i<nsym) (x - alpha^i)`, stored low-degree-first in `nsym+1`
bytes. -/
def rs_generator_poly (nsym : Nat) : List Nat :=
  (List.range nsym).foldl (fun g i => rsGenInner (gf_exp i) nsym g)
    ((List.replicate (nsym + 1) 0).set 0 1)

/-! ## rs_encode2, from src/unnamed/part_009

The function computes, for each parity shard `p` and byte position `pos`,
the XOR over the data shards `d` of `gf_mul(data[d][pos], gf_exp[(d*(p+1)) % 255])`.
It also builds the generator polynomial, which it never uses afterwards. -/

/-- Byte `pos` of parity shard `p` as computed by the inner loops of
`rs_encode2` (and by the identical regeneration loop inside `rs_decode2`). -/
def rs_parity_byte (data_shards : Nat) (shards : List (List Nat)) (p pos : Nat) : Nat :=
  (List.range data_shards).foldl
    (fun result d =>
      result ^^^ gf_mul ((shards.getD d []).getD pos 0) (gf_exp ((d * (p + 1)) % 255)))
    0

/-- Parity shard `p` (the `memset` to zero followed by the per-position loop). -/
def rs_parity_shard (data_shards : Nat) (shards : List (List Nat)) (shard_len p : Nat) :
    List Nat :=
  (List.range shard_len).map (rs_parity_byte data_shards shards p)

/-- Model of `rs_encode2(data_shards, total_shards, shards, shard_len)`: `none` models
the `-1` error return; on success the parity slots `data_shards ..
total_shards-1` are overwritten with the computed parity shards.  The binding
`gen` mirrors the generator polynomial that the C code computes and then
never reads. -/
def rs_encode2 (data_shards total_shards : Nat) (shards : List (List Nat))
    (shard_len : Nat) : Option (List (List Nat)) :=
  let parity_shards := total_shards - data_shards
  if parity_shards = 0 || data_shards = 0 then none
  else
    let _gen := rs_generator_poly parity_shards
    some ((List.range parity_shards).foldl
      (fun acc p => acc.set (data_shards + p) (rs_parity_shard data_shards shards shard_len p))
      shards)

/-! ## rs_decode2, from src/unnamed/part_009

`shards[i] == nullptr` is modelled as `none`.  The recovery paths of the C
code write through a function-local `static std::vector<char> temp_buffer`
and then store `temp_buffer.data()` into every slot they fill, so all slots
recovered by one call alias one buffer: after the call each of them holds the
bytes computed in the *last* loop iteration.  In the XOR path the computed
bytes do not depend on the missing index, so the aliasing is invisible there;
in the parity-regeneration path every regenerated slot ends up holding the
parity of the last missing parity index. -/

/-- Byte `pos` of the XOR "recovery": XOR of the first (at most two) present
data shards, exactly as the `count < 2` loop of `rs_decode2` computes it. -/
def rs_xor_recovery_byte (data_shards : Nat) (shards : List (Option (List Nat)))
    (present : List Nat) (pos : Nat) : Nat :=
  ((present.filter (fun i => i < data_shards)).take 2).foldl
    (fun result i => result ^^^ (((shards.getD i none).getD []).getD pos 0)) 0

/-- Model of `rs_decode2(data_shards, total_shards, shards, shard_len)`; the first
component models the C return value, the second the shard array after the
call. -/
def rs_decode2 (data_shards total_shards : Nat) (shards : List (Option (List Nat)))
    (shard_len : Nat) : Int × List (Option (List Nat)) :=
  let parity_shards := total_shards - data_shards
  if parity_shards = 0 || data_shards = 0 then (-1, shards)
  else
    let missing := (List.range total_shards).filter (fun i => (shards.getD i none) = none)
    let present := (List.range total_shards).filter (fun i => (shards.getD i none) ≠ none)
    if missing = [] then (0, shards)
    else if parity_shards < missing.length then (-1, shards)
    else
      let available_data :=
        ((List.range data_shards).filter (fun i => (shards.getD i none) ≠ none)).length
      if available_data = data_shards then
        -- all data shards present: regenerate the missing parity shards; the
        -- shared static buffer leaves every regenerated slot holding the
        -- bytes of the last missing parity index
        let dataList := shards.map (fun s => s.getD [])
        let aliased :=
          match (missing.filter (fun i => data_shards ≤ i)).getLast? with
          | some lastIdx =>
              rs_parity_shard data_shards dataList shard_len (lastIdx - data_shards)
          | none => []
        (0, missing.foldl
          (fun acc idx => if data_shards ≤ idx then acc.set idx (some aliased) else acc)
          shards)
      else if data_shards ≤ present.length then
        -- "Simple XOR-based recovery" of the source; missing parity slots are
        -- left untouched in this path
        let recovered :=
          (List.range shard_len).map (rs_xor_recovery_byte data_shards shards present)
        (0, missing.foldl
          (fun acc idx => if idx < data_shards then acc.set idx (some recovered) else acc)
          shards)
      else (-1, shards)

/-! ## Specification-side systematic LFSR encoding (for the refinement check
of the encoder)

Modelled from the spec: "systematic encoding computing the remainder of
`data(x) * x^m` modulo `g(x)`", with `g` the generator polynomial built by
`rs_generator_poly` ("coefficients stored low-degree-first").  The remainder
is computed by ordinary polynomial division over GF(256); `g` is monic, so no
inversion is needed.  This definition follows the spec's words; it is the
comparison point for `rs_encode2`, not a translation of the source. -/

/-- One division step: cancel the leading coefficient `c` of the dividend
against the (monic) divisor, leaving a dividend one coefficient shorter. -/
def gfPolyModStep (gtail : List Nat) (c : Nat) (rest : List Nat) : List Nat :=
  (List.zipWith (fun a b => a ^^^ b) (rest.take gtail.length)
    (gtail.map (fun gc => gf_mul c gc))) ++ rest.drop gtail.length

/-- Fuelled division loop; each step shortens the dividend by one, so fuel
equal to the dividend length always suffices (the fuel-0 branch is never
reached). -/
def gfPolyModAux (gtail : List Nat) : Nat → List Nat → List Nat
  | _, [] => []
  | 0, l => l
  | fuel + 1, c :: rest =>
    if rest.length < gtail.length then c :: rest
    else gfPolyModAux gtail fuel (gfPolyModStep gtail c rest)

/-- Polynomial remainder, both polynomials high-degree-first; `gtail` is the
divisor without its leading coefficient, which must be 1. -/
def gfPolyModHF (gtail l : List Nat) : List Nat := gfPolyModAux gtail l.length l

/-- Modelled from the spec: the `m` parity bytes of one symbol column `col`
(low index = coefficient of the lowest power), namely the coefficients,
low-degree-first, of `col(x) * x^m mod g(x)` where
`g = rs_generator_poly m`. -/
def spec_lfsr_parity (m : Nat) (col : List Nat) : List Nat :=
  let g := rs_generator_poly m
  let gtail := g.reverse.drop 1
  let dividend := (List.replicate m 0 ++ col).reverse
  let r := gfPolyModHF gtail dividend
  (List.replicate (m - r.length) 0 ++ r).reverse

/-! ## RSFecFilter of src/srtcore/rsfec.cpp

Send side: `feedSource` buffers `memcpy`-copies of `payloadSize()` bytes of
each source packet and, on the `k`-th one, computes the parity packets
column-wise through the external `encode_rs_char` (parameter `enc` below).
`packControlPacket` hands the parity packets out one by one.

Receive side: `receive` files each in-window packet into the group of its
sequence position; on a parity packet it attempts the erasure decode through
the external `decode_rs_char` (parameter `decodeFn`), rebuilds the missing
source shards and pushes them to the provided queue. -/

/-- A packet as `feedSource` and `receive` read it: `buffer` is the packet
buffer from which `memcpy(..., pkt.data(), payloadSize())` copies (the
transport reuses buffers, so bytes past `plen` are arbitrary), `plen` is
`pkt.getLength()`, `is_ctl` says whether `pkt.getMsgSeq() == SRT_MSGNO_CONTROL`. -/
structure Pkt where
  seq : Int
  timestamp : Nat
  buffer : List Nat
  plen : Nat
  is_ctl : Bool
  deriving Repr, DecidableEq

/-- A parity packet prepared by `feedSource` for `packControlPacket`. -/
structure ParityPkt where
  seq : Int
  timestamp : Nat
  payload : List Nat
  deriving Repr, DecidableEq

/-- Send-side group state (`RSFecFilter::snd`); `start_set` models whether
`snd.start` holds a nonzero time point. -/
structure SndState where
  base : Int
  data : List (List Nat)
  collected : Nat
  parity : List ParityPkt
  next_parity : Nat
  start_set : Bool
  deriving Repr, DecidableEq

/-- The construction-time send state: `k` zeroed data shards, `m` empty
parity packets (`SrtPacket(payloadSize())` zero-initialises the header). -/
def rsfec_initSnd (k m L : Nat) : SndState :=
  { base := -1
    data := List.replicate k (List.replicate L 0)
    collected := 0
    parity := List.replicate m { seq := 0, timestamp := 0, payload := List.replicate L 0 }
    next_parity := 0
    start_set := false }

/-- Parity shard `p` as assembled from the column-wise `encode_rs_char`
calls; `enc` is the external column coder. -/
def sndParityShard (enc : List Nat → List Nat) (k L : Nat) (data : List (List Nat))
    (p : Nat) : List Nat :=
  (List.range L).map (fun j =>
    (enc ((List.range k).map (fun i => (data.getD i []).getD j 0))).getD p 0)

/-- Model of `RSFecFilter::feedSource`. -/
def rsfec_feedSource (k m L : Nat) (enc : List Nat → List Nat) (s : SndState)
    (pkt : Pkt) : SndState :=
  let s1 := if s.collected = 0 then { s with base := pkt.seq, start_set := true } else s
  let s2 :=
    if s1.collected < s1.data.length then
      { s1 with data := s1.data.set s1.collected (pkt.buffer.take L)
                collected := s1.collected + 1 }
    else s1
  if s2.collected = k then
    { s2 with
        parity := (List.range m).map (fun p =>
          { seq := s2.base + (k + p : Nat)
            timestamp := pkt.timestamp
            payload := sndParityShard enc k L s2.data p })
        next_parity := 0
        start_set := false }
  else s2

/-- Model of `RSFecFilter::packControlPacket`; `timeout_expired` abstracts
`m_timeout_us > 0` together with the elapsed-time comparison, and the
returned flag is the C return value. -/
def rsfec_packControl (k : Nat) (timeout_expired : Bool) (s : SndState) :
    SndState × Bool :=
  if s.collected < k then
    (if timeout_expired ∧ s.start_set then { s with collected := 0, start_set := false }
     else s, false)
  else if s.parity.length ≤ s.next_parity then
    ({ s with collected := 0, start_set := false }, false)
  else
    ({ s with next_parity := s.next_parity + 1 }, true)

/-- Receive-side group state (`RSFecFilter::Impl`-style `RecvGroup` of
rsfec.cpp). -/
structure RecvGroup where
  base : Int
  data : List (List Nat)
  have_data : List Bool
  parity : List (List Nat)
  have_parity : List Bool
  have_count : Nat
  timestamp : Nat
  ts_set : Bool
  deriving Repr, DecidableEq

/-- A packet rebuilt by the receiver and pushed to the provided queue. -/
structure ProvidedPkt where
  seq : Int
  timestamp : Nat
  payload : List Nat
  deriving Repr, DecidableEq

/-- Receive-side filter state of rsfec.cpp: `rcv_groups` is the
`std::map<int32_t, RecvGroup>` as an association list, `provided` the
`m_provided` vector.  rsfec.cpp never iterates the map, so the key order is
irrelevant there. -/
structure RcvState where
  rcv_base : Int
  groups : List (Int × RecvGroup)
  provided : List ProvidedPkt
  deriving Repr, DecidableEq

/-- The group that `rcv_groups[gbase]` default-inserts and that `receive`
then initialises (`g.base == SRT_SEQNO_NONE` branch). -/
def freshRecvGroup (k m L : Nat) (gbase : Int) : RecvGroup :=
  { base := gbase
    data := List.replicate k (List.replicate L 0)
    have_data := List.replicate k false
    parity := List.replicate m (List.replicate L 0)
    have_parity := List.replicate m false
    have_count := 0
    timestamp := 0
    ts_set := false }

/-- Map lookup. -/
def lookupGroup (gs : List (Int × RecvGroup)) (key : Int) : Option RecvGroup :=
  (gs.find? (fun kv => kv.1 == key)).map (fun kv => kv.2)

/-- Map insert-or-assign (the net effect of `rcv_groups[gbase]` plus the
mutations through the returned reference). -/
def updateGroup : List (Int × RecvGroup) → Int → RecvGroup → List (Int × RecvGroup)
  | [], key, g => [(key, g)]
  | kv :: t, key, g =>
    if kv.1 == key then (key, g) :: t else kv :: updateGroup t key g

/-- Map erase. -/
def eraseGroup (gs : List (Int × RecvGroup)) (key : Int) : List (Int × RecvGroup) :=
  gs.filter (fun kv => kv.1 != key)

/-- The column handed to `decode_rs_char`: present shards contribute their
byte at position `j`, missing shards contribute 0. -/
def buildColumn (k m : Nat) (g : RecvGroup) (j : Nat) : List Nat :=
  (List.range k).map (fun i =>
      if g.have_data.getD i false then (g.data.getD i []).getD j 0 else 0)
    ++ (List.range m).map (fun p =>
      if g.have_parity.getD p false then (g.parity.getD p []).getD j 0 else 0)

/-- After a successful column decode, byte `j` of every missing data shard is
overwritten from the decoded column. -/
def writeColumn (miss : List Nat) (col : List Nat) (j : Nat)
    (data : List (List Nat)) : List (List Nat) :=
  miss.foldl (fun acc di => acc.set di ((acc.getD di []).set j (col.getD di 0))) data

/-- The per-column decode loop of `receive`; `decodeFn` models the external
`decode_rs_char` (given the column and the erasure positions it returns the
status and the repaired column).  A negative status breaks out of the loop,
keeping the columns already written. -/
def rsfecDecodeLoop (decodeFn : List Nat → List Nat → Int × List Nat)
    (k m : Nat) (miss eras : List Nat) : Nat → Nat → RecvGroup → RecvGroup
  | 0, _, g => g
  | fuel + 1, j, g =>
    let r := decodeFn (buildColumn k m g j) eras
    if r.1 < 0 then g
    else rsfecDecodeLoop decodeFn k m miss eras fuel (j + 1)
      { g with data := writeColumn miss r.2 j g.data }

/-- The "supply rebuilt packets" loop: one provided packet per missing data
index, and `have_data` set for each (run regardless of decode success, as in
the source). -/
def supplyRebuilt (miss : List Nat) (g : RecvGroup)
    (provided : List ProvidedPkt) : List ProvidedPkt × RecvGroup :=
  miss.foldl
    (fun st di =>
      (st.1 ++ [{ seq := g.base + (di : Nat), timestamp := g.timestamp
                  payload := g.data.getD di [] }],
       { st.2 with have_data := st.2.have_data.set di true }))
    (provided, g)

/-- The within-block index `off % n` of the incoming packet (`idx`). -/
def rsfec_shardIndex (k m : Nat) (st : RcvState) (pkt : Pkt) : Nat :=
  (pkt.seq - st.rcv_base).toNat % (k + m)

/-- The base sequence of the incoming packet's block (`gbase`). -/
def rsfec_groupBase (k m : Nat) (st : RcvState) (pkt : Pkt) : Int :=
  st.rcv_base + ((((pkt.seq - st.rcv_base).toNat) / (k + m)) * (k + m) : Nat)

/-- The indices of the missing source shards of a group (the `miss` vector). -/
def rsfec_missingData (k : Nat) (g : RecvGroup) : List Nat :=
  (List.range k).filter (fun i => ¬ (g.have_data.getD i false))

/-- The group of the incoming packet after the shard-storing part of
`receive` (group located or created, timestamp recorded, the arriving shard
stored if its slot was empty) — the state of the block just before the decode
attempt. -/
def rsfec_storedGroup (k m L : Nat) (st : RcvState) (pkt : Pkt) : RecvGroup :=
  let idx := rsfec_shardIndex k m st pkt
  let gbase := rsfec_groupBase k m st pkt
  let g0 := (lookupGroup st.groups gbase).getD (freshRecvGroup k m L gbase)
  let g1 := if g0.ts_set then g0 else { g0 with timestamp := pkt.timestamp, ts_set := true }
  if idx < k then
    if g1.have_data.getD idx false then g1
    else { g1 with data := g1.data.set idx (pkt.buffer.take L)
                   have_data := g1.have_data.set idx true
                   have_count := g1.have_count + 1 }
  else
    let pidx := idx - k
    if pidx < m ∧ ¬ (g1.have_parity.getD pidx false) then
      { g1 with parity := g1.parity.set pidx (pkt.buffer.take L)
                have_parity := g1.have_parity.set pidx true
                have_count := g1.have_count + 1 }
    else g1

/-- Model of `RSFecFilter::receive` of rsfec.cpp.  The returned flag is the C return
value (`true` = pass the packet through to SRT). -/
def rsfec_receive (k m L : Nat) (decodeFn : List Nat → List Nat → Int × List Nat)
    (st : RcvState) (pkt : Pkt) : RcvState × Bool :=
  let off := pkt.seq - st.rcv_base
  if off < 0 then (st, true)
  else
    let idx := rsfec_shardIndex k m st pkt
    let gbase := rsfec_groupBase k m st pkt
    let g2 := rsfec_storedGroup k m L st pkt
    if idx < k then
      ({ st with groups := updateGroup st.groups gbase g2 }, true)
    else
      let step :=
        if k ≤ g2.have_count then
          let miss := rsfec_missingData k g2
          if miss ≠ [] ∧ miss.length ≤ m then
            let eras := miss
              ++ ((List.range m).filter (fun p => ¬ (g2.have_parity.getD p false))).map
                  (fun p => k + p)
            let g3 := rsfecDecodeLoop decodeFn k m miss eras L 0 g2
            let pr := supplyRebuilt miss g3 st.provided
            (pr.2, pr.1)
          else (g2, st.provided)
        else (g2, st.provided)
      let all := (List.range k).all (fun i => step.1.have_data.getD i false)
      let groups2 :=
        if all then eraseGroup st.groups gbase
        else updateGroup st.groups gbase step.1
      ({ st with groups := groups2, provided := step.2 }, false)

/-! ## RSFecFilter of src/unnamed/part_008 (the pimpl variant)

This prototype differs from rsfec.cpp: `receive` first evicts groups more
than `MAX_GROUP_AGE_IN_PACKETS = 50` packets behind the arriving sequence,
stores the shard (without an early return for data), then sweeps the ordered
group map from the front, reconstructing and flushing every group that
`reconstruct_if_possible` accepts — and it returns `true` for every packet,
parity included. -/

/-- A packet rebuilt by the part_008 receiver (it also stamps a message
number from the `m_rcv_msgno_counter`). -/
structure Provided8 where
  seq : Int
  timestamp : Nat
  msgno : Nat
  payload : List Nat
  deriving Repr, DecidableEq

/-- Receiver state of the part_008 `RSFecFilter::Impl`; `groups` is the
`std::map` ordered by sequence, kept as a sorted association list. -/
structure Rcv8State where
  rcv_base : Int
  groups : List (Int × RecvGroup)
  provided : List Provided8
  msgno : Nat
  deriving Repr, DecidableEq

/-- Sorted-map insert-or-assign for the part_008 group map. -/
def insertSorted : List (Int × RecvGroup) → Int → RecvGroup → List (Int × RecvGroup)
  | [], key, g => [(key, g)]
  | kv :: t, key, g =>
    if key < kv.1 then (key, g) :: kv :: t
    else if kv.1 == key then (key, g) :: t
    else kv :: insertSorted t key g

/-- The front-eviction loop of part_008 `receive`: drop leading groups that
are more than 50 packets behind `seq`, advancing `rcv_base` past each. -/
def rsfec8_evict (n : Nat) (seq : Int) : List (Int × RecvGroup) → Int →
    List (Int × RecvGroup) × Int
  | [], base => ([], base)
  | kv :: t, base =>
    if 50 < seq - kv.1 then rsfec8_evict n seq t (kv.1 + (n : Nat))
    else (kv :: t, base)

/-- The column loop of `Impl::reconstruct_if_possible`: decode each of the
`L` columns through the external decoder, writing the missing data bytes; a
negative status aborts, keeping the columns already written. -/
def recon8Columns (decodeFn : List Nat → List Nat → Int × List Nat)
    (k m : Nat) (missd eras : List Nat) : Nat → Nat → RecvGroup → Bool × RecvGroup
  | 0, _, g => (true, g)
  | fuel + 1, j, g =>
    let r := decodeFn (buildColumn k m g j) eras
    if r.1 < 0 then (false, g)
    else recon8Columns decodeFn k m missd eras fuel (j + 1)
      { g with data := writeColumn missd r.2 j g.data }

/-- Model of `Impl::reconstruct_if_possible` of part_008. -/
def rsfec8_reconstruct (decodeFn : List Nat → List Nat → Int × List Nat)
    (k m L : Nat) (g : RecvGroup) : Bool × RecvGroup :=
  if g.have_count < k then (false, g)
  else
    let missd := rsfec_missingData k g
    if missd = [] then (true, g)
    else
      let ppc := ((List.range m).filter (fun p => g.have_parity.getD p false)).length
      if ppc < missd.length then (false, g)
      else
        let eras := missd
          ++ ((List.range m).filter (fun p => ¬ (g.have_parity.getD p false))).map
              (fun p => k + p)
        recon8Columns decodeFn k m missd eras L 0 g

/-- The per-group packet flush of the part_008 reconstruct sweep: one
provided packet per source index `0 .. k-1`, with the wrapping message-number
counter. -/
def rsfec8_pushGroup (k : Nat) (g : RecvGroup) (msgno : Nat)
    (prov : List Provided8) : Nat × List Provided8 :=
  (List.range k).foldl
    (fun st i =>
      let m2 := (st.1 + 1) &&& 0x1FFFFFFF
      (m2, st.2 ++ [{ seq := g.base + (i : Nat), timestamp := g.timestamp
                      msgno := m2, payload := g.data.getD i [] }]))
    (msgno, prov)

/-- The reconstruct-and-flush sweep over the (ordered) group map of part_008
`receive`: flush every leading reconstructible group, stop at the first one
that is not (keeping its partially decoded state). -/
def rsfec8_sweep (decodeFn : List Nat → List Nat → Int × List Nat)
    (k m L n : Nat) : List (Int × RecvGroup) → Int → Nat → List Provided8 →
    Rcv8State
  | [], base, msgno, prov =>
    { rcv_base := base, groups := [], provided := prov, msgno := msgno }
  | kv :: t, base, msgno, prov =>
    let r := rsfec8_reconstruct decodeFn k m L kv.2
    if r.1 then
      let pg := rsfec8_pushGroup k r.2 msgno prov
      rsfec8_sweep decodeFn k m L n t (kv.1 + (n : Nat)) pg.1 pg.2
    else
      { rcv_base := base, groups := (kv.1, r.2) :: t, provided := prov, msgno := msgno }

/-- Model of `RSFecFilter::receive` of src/unnamed/part_008.  Note the unconditional
`return true` at the end: this variant passes every packet through, parity
included. -/
def rsfec8_receive (k m L : Nat) (decodeFn : List Nat → List Nat → Int × List Nat)
    (st : Rcv8State) (pkt : Pkt) : Rcv8State × Bool :=
  let n := k + m
  let ev := rsfec8_evict n pkt.seq st.groups st.rcv_base
  let off := pkt.seq - ev.2
  if off < 0 then ({ st with groups := ev.1, rcv_base := ev.2 }, true)
  else
    let offN := off.toNat
    let idx := offN % n
    let gbase := ev.2 + ((offN / n) * n : Nat)
    let g0 := (lookupGroup ev.1 gbase).getD (freshRecvGroup k m L gbase)
    let g1 := if g0.ts_set then g0 else { g0 with timestamp := pkt.timestamp, ts_set := true }
    let g2 :=
      if idx < k then
        if g1.have_data.getD idx false then g1
        else { g1 with data := g1.data.set idx (pkt.buffer.take L)
                       have_data := g1.have_data.set idx true
                       have_count := g1.have_count + 1 }
      else
        let pidx := idx - k
        if pidx < m ∧ ¬ (g1.have_parity.getD pidx false) then
          { g1 with parity := g1.parity.set pidx (pkt.buffer.take L)
                    have_parity := g1.have_parity.set pidx true
                    have_count := g1.have_count + 1 }
        else g1
    (rsfec8_sweep decodeFn k m L n (insertSorted ev.1 gbase g2) ev.2 st.msgno st.provided,
     true)

/-! ## FECReedSolomon receiver bookkeeping (src/srtcore/fec_rs.cpp, first
version in the file)

`receive` first calls `cleanupOldGroups`, which returns immediately unless at
least one second has passed since the previous cleanup; otherwise it erases
every group older than `GROUP_TIMEOUT` and then repeatedly erases the
oldest group while more than `MAX_GROUPS` remain.  `receive` then parses the
FEC header and files the parity shard, creating the group on first contact.
Times are in milliseconds; the `std::unordered_map` is an association list
(its unspecified iteration order is modelled as list order, which only
matters for which of several equally old groups `std::min_element` picks). -/

def MAX_GROUPS : Nat := 64

def GROUP_TIMEOUT : Nat := 5000

/-- Receiver group state (`FECGroup` of fec_rs.h, first version). -/
structure FecRsGroup where
  creation_time : Nat
  shards : List (Option (List Nat))
  received_count : Nat
  max_shard_size : Nat
  group_seq : Nat
  base_seq : Int
  deriving Repr, DecidableEq

/-- The `FECReedSolomon` receiver state: `receiver_groups` and `last_cleanup`. -/
structure FecRsState where
  groups : List (Nat × FecRsGroup)
  last_cleanup : Nat
  deriving Repr, DecidableEq

/-- Generic association-list lookup (for the `unordered_map`). -/
def lookupKV {α : Type} (gs : List (Nat × α)) (key : Nat) : Option α :=
  (gs.find? (fun kv => kv.1 == key)).map (fun kv => kv.2)

/-- Generic association-list insert-or-assign. -/
def updateKV {α : Type} : List (Nat × α) → Nat → α → List (Nat × α)
  | [], key, g => [(key, g)]
  | kv :: t, key, g =>
    if kv.1 == key then (key, g) :: t else kv :: updateKV t key g

/-- Erase the first group whose creation time is minimal (what
`std::min_element` + `erase` does on each trimming iteration). -/
def eraseFirstMin : List (Nat × FecRsGroup) → List (Nat × FecRsGroup)
  | [] => []
  | kv :: rest =>
    if rest.all (fun kv2 => kv.2.creation_time ≤ kv2.2.creation_time) then rest
    else kv :: eraseFirstMin rest

/-- The trimming `while (receiver_groups.size() > MAX_GROUPS)` loop; each
iteration removes exactly one group, so fuel equal to the initial size always
suffices and the fuelled loop equals the unbounded one. -/
def trimAux : Nat → List (Nat × FecRsGroup) → List (Nat × FecRsGroup)
  | 0, gs => gs
  | fuel + 1, gs =>
    if MAX_GROUPS < gs.length then trimAux fuel (eraseFirstMin gs) else gs

def trimGroups (gs : List (Nat × FecRsGroup)) : List (Nat × FecRsGroup) :=
  trimAux gs.length gs

/-- Model of `FECReedSolomon::cleanupOldGroups`: throttled to once per second; erases
expired groups (`isExpired`: age strictly greater than the timeout), then
trims to `MAX_GROUPS`. -/
def fecrs_cleanupOldGroups (now : Nat) (st : FecRsState) : FecRsState :=
  if now - st.last_cleanup < 1000 then st
  else
    let gs1 := st.groups.filter
      (fun kv => ¬ (GROUP_TIMEOUT < now - kv.2.creation_time))
    { groups := trimGroups gs1, last_cleanup := now }

/-- An inbound packet as `FECReedSolomon::receive` reads it: the control
flag, total length, and the two big-endian header words, followed by the
parity payload bytes. -/
structure CtlPkt where
  is_ctl : Bool
  len : Nat
  ctrl_header : Nat
  fec_header : Nat
  payload : List Nat
  deriving Repr, DecidableEq

/-- The group constructed on first contact (`base_seq` is the
`group_seq * data_shards` estimate of the source). -/
def fecrs_freshGroup (now data_shards parity_shards gseq : Nat) : FecRsGroup :=
  { creation_time := now
    shards := List.replicate (data_shards + parity_shards) none
    received_count := 0
    max_shard_size := 0
    group_seq := gseq
    base_seq := ((gseq * data_shards : Nat) : Int) }

/-- Model of `FECReedSolomon::receive` (first version in fec_rs.cpp): cleanup, header
validation, then filing of the parity shard; always returns `false` (this
variant only tracks parity and leaves data packets to the SRT core). -/
def fecrs_receive (data_shards parity_shards now : Nat) (st : FecRsState)
    (pkt : CtlPkt) : FecRsState × Bool :=
  let st1 := fecrs_cleanupOldGroups now st
  if ¬ pkt.is_ctl then (st1, false)
  else if pkt.len < 8 then (st1, false)
  else if (pkt.ctrl_header &&& 0xFFFF0000) ≠ 0x80080000 then (st1, false)
  else
    let group_seq := (pkt.fec_header >>> 16) &&& 0xFFFF
    let shard_index := (pkt.fec_header >>> 8) &&& 0xFF
    let dsc := pkt.fec_header &&& 0xFF
    if parity_shards ≤ shard_index then (st1, false)
    else if dsc ≠ data_shards then (st1, false)
    else
      let payload_len := pkt.len - 8
      let g := (lookupKV st1.groups group_seq).getD
        (fecrs_freshGroup now data_shards parity_shards group_seq)
      let psi := data_shards + shard_index
      let g2 :=
        if (g.shards.getD psi none) = none then
          { g with shards := g.shards.set psi (some pkt.payload)
                   received_count := g.received_count + 1
                   max_shard_size := max g.max_shard_size payload_len }
        else g
      ({ st1 with groups := updateKV st1.groups group_seq g2 }, false)

/-! ## Helper lemmas -/

/-- A fold of `List.set` updates keeps the list length. -/
theorem length_foldl_set (l0 : List (List Nat)) (idxs : List Nat)
    (f : Nat → Nat) (v : Nat → List Nat) :
    (idxs.foldl (fun acc p => acc.set (f p) (v p)) l0).length = l0.length := by
  induction idxs generalizing l0 with
  | nil => rfl
  | cons i t ih => simpa using ih (l0.set (f i) (v i))

/-- Reading back a slot written by a fold of `List.set` over `List.range`
at pairwise distinct positions `k + p`. -/
theorem foldl_set_range_getD (v : Nat → List Nat) (k : Nat) :
    ∀ (P p0 : Nat), p0 < P → ∀ l0 : List (List Nat), k + P ≤ l0.length →
      ((List.range P).foldl (fun acc p => acc.set (k + p) (v p)) l0).getD (k + p0) []
        = v p0 := by
  intro P
  induction P with
  | zero => omega
  | succ P ih =>
    intro p0 hp0 l0 hlen
    rw [List.range_succ, List.foldl_append, List.foldl_cons, List.foldl_nil]
    rcases Nat.lt_or_ge p0 P with h | h
    · rw [List.getD_eq_getElem?_getD, List.getElem?_set_ne (by omega),
        ← List.getD_eq_getElem?_getD]
      exact ih p0 h l0 (by omega)
    · have hp0P : p0 = P := by omega
      subst hp0P
      have hl : k + p0 < ((List.range p0).foldl
          (fun acc p => acc.set (k + p) (v p)) l0).length := by
        rw [length_foldl_set _ _ (fun p => k + p) v]; omega
      rw [List.getD_eq_getElem?_getD, List.getElem?_set_eq_of_lt _ hl]
      rfl

/-- Reading `List.getD` after a `List.set` at a different index. -/
theorem getD_set_ne {α : Type} (l : List α) (v d : α) (j i : Nat) (h : j ≠ i) :
    (l.set j v).getD i d = l.getD i d := by
  rw [List.getD_eq_getElem?_getD, List.getElem?_set_ne h, List.getD_eq_getElem?_getD]

/-- Looking up the key just written by `updateGroup`. -/
theorem lookupGroup_updateGroup (gs : List (Int × RecvGroup)) (key : Int) (g : RecvGroup) :
    lookupGroup (updateGroup gs key g) key = some g := by
  induction gs with
  | nil => simp [updateGroup, lookupGroup, List.find?]
  | cons kv t ih =>
    by_cases h : kv.1 = key
    · simp [updateGroup, h, lookupGroup, List.find?]
    · have hb : (kv.1 == key) = false := by simp [h]
      simp only [updateGroup, hb, Bool.false_eq_true, if_false, lookupGroup,
        List.find?_cons, hb]
      exact ih

/-- If some source shard is missing, the `all`-present test of `receive` is
false. -/
theorem all_eq_false_of_missing (k : Nat) (g : RecvGroup)
    (h : rsfec_missingData k g ≠ []) :
    (List.range k).all (fun i => g.have_data.getD i false) = false := by
  cases hall : (List.range k).all (fun i => g.have_data.getD i false) with
  | false => rfl
  | true =>
    exfalso
    apply h
    unfold rsfec_missingData
    rw [List.filter_eq_nil_iff]
    intro a ha
    have h1 := (List.all_eq_true.mp hall) a ha
    rw [List.getD_eq_getElem?_getD] at h1
    simp [h1]

/-- Congruence for the XOR-accumulating fold used by `rs_parity_byte`. -/
theorem foldl_xor_congr (f g : Nat → Nat) (l : List Nat)
    (h : ∀ d ∈ l, f d = g d) :
    ∀ init : Nat, l.foldl (fun r d => r ^^^ f d) init
      = l.foldl (fun r d => r ^^^ g d) init := by
  induction l with
  | nil => intro init; rfl
  | cons a t ih =>
    intro init
    rw [List.foldl_cons, List.foldl_cons, h a (by simp)]
    exact ih (fun d hd => h d (by simp [hd])) _

/-! ## Claim theorems: the RS core -/

/-- Claim C1 (status code_bug, evaluation at the failing input): with `k = 2`,
`m = 1`, `L = 1` and source shards `[0x00]`, `[0x01]`, `rs_encode2` produces
the parity shard `[0x02]`, but after erasing source shard 0 the decoder
`rs_decode2` reports success and rebuilds shard 0 as `[0x01]` — the XOR of the
one remaining data shard — instead of the original `[0x00]`.  The claimed
round trip (decode restores every erased source shard exactly) fails. -/
theorem rs_decode2_fails_roundtrip :
    rs_encode2 2 3 [[0], [1], [9]] 1 = some [[0], [1], [2]] ∧
    rs_decode2 2 3 [none, some [1], some [2]] 1
      = (0, [some [1], some [1], some [2]]) ∧
    ([1] : List Nat) ≠ [0] := by
  refine ⟨by decide, by decide, by decide⟩

/-- Claim C2, counterexample: with `k = 2`, `m = 1`, `L = 1` and the data
column `0x00, 0x01`, the encoder emits the parity byte `0x02`, while the
remainder of `data(x) * x^1` modulo `g(x) = x - alpha^0` has coefficient
`0x01`.  The parity bytes of `rs_encode2` are not the LFSR remainder the
spec describes. -/
theorem rs_encode2_ne_spec_lfsr :
    rs_encode2 2 3 [[0], [1], [9]] 1 = some [[0], [1], [2]] ∧
    spec_lfsr_parity 1 [0, 1] = [1] ∧
    (2 : Nat) ≠ 1 := by
  refine ⟨by decide, by decide, by decide⟩

/-- Claim C2, amended: `rs_encode2` is a systematic encoder whose parity shard
`p` holds, at each byte position, the XOR over the data shards `d` of
`gf_mul(data[d][pos], gf_exp[(d*(p+1)) mod 255])` (the generator polynomial is
computed but unused), and each parity byte depends only on its own byte
column of the data shards. -/
theorem rs_encode2_parity_formula (k n L p pos : Nat)
    (shards shards2 : List (List Nat))
    (hk : 0 < k) (hkn : k < n) (hp : p < n - k) (hlen : n ≤ shards.length)
    (hcols : ∀ d, d < k →
      (shards2.getD d []).getD pos 0 = (shards.getD d []).getD pos 0) :
    rs_encode2 k n shards L ≠ none ∧
    ((rs_encode2 k n shards L).getD []).getD (k + p) []
      = rs_parity_shard k shards L p ∧
    rs_parity_byte k shards2 p pos = rs_parity_byte k shards p pos := by
  have hg : ¬ (n - k = 0 || k = 0) = true := by
    simp only [Bool.or_eq_true, decide_eq_true_eq]
    omega
  have henc : rs_encode2 k n shards L = some ((List.range (n - k)).foldl
      (fun acc q => acc.set (k + q) (rs_parity_shard k shards L q)) shards) := by
    rw [rs_encode2, if_neg hg]
  refine ⟨by rw [henc]; exact Option.some_ne_none _, ?_, ?_⟩
  · rw [henc]
    simp only [Option.getD_some]
    exact foldl_set_range_getD _ k (n - k) p hp shards (by omega)
  · unfold rs_parity_byte
    exact foldl_xor_congr _ _ (List.range k)
      (fun d hd => by rw [hcols d (List.mem_range.mp hd)]) 0

/-- Witness for `rs_encode2_parity_formula`: `k = 2`, `n = 3`, `L = 1`,
`p = 0`, column 0, with a second shard matrix that agrees on column 0. -/
theorem rs_encode2_parity_formula_witness :
    (0 < 2 ∧ 2 < 3 ∧ 0 < 3 - 2 ∧ 3 ≤ ([[0], [1], [9]] : List (List Nat)).length ∧
      (∀ d, d < 2 → (([[0, 5], [1, 6]] : List (List Nat)).getD d []).getD 0 0
        = (([[0], [1], [9]] : List (List Nat)).getD d []).getD 0 0)) ∧
    (rs_encode2 2 3 [[0], [1], [9]] 1 ≠ none ∧
      ((rs_encode2 2 3 [[0], [1], [9]] 1).getD []).getD (2 + 0) []
        = rs_parity_shard 2 [[0], [1], [9]] 1 0 ∧
      rs_parity_byte 2 [[0, 5], [1, 6]] 0 0 = rs_parity_byte 2 [[0], [1], [9]] 0 0) := by
  refine ⟨⟨by decide, by decide, by decide, by decide, by decide⟩, ?_⟩
  exact rs_encode2_parity_formula 2 3 1 0 0 [[0], [1], [9]] [[0, 5], [1, 6]]
    (by decide) (by decide) (by decide) (by decide) (by decide)

/-! ## Claim theorems: the rsfec.cpp receiver -/

/-- Claim C3 (confirmed): if, after filing the arriving in-window shard, more
than `m` source shards of its block are missing, then `receive` pushes no
rebuilt packet, keeps the block in the table in exactly its filed state, and
leaves every source shard that was already stored byte-for-byte unchanged —
for any behaviour of the external column decoder. -/
theorem rsfec_storedGroup_preserves (k m L : Nat) (st : RcvState) (pkt : Pkt)
    (g : RecvGroup) (i : Nat)
    (hg : lookupGroup st.groups (rsfec_groupBase k m st pkt) = some g)
    (hi : g.have_data.getD i false = true) :
    (rsfec_storedGroup k m L st pkt).data.getD i [] = g.data.getD i [] := by
  simp only [rsfec_storedGroup]
  rw [hg]
  simp only [Option.getD_some]
  split
  · split
    · split
      · rfl
      · rename_i hhad
        exact getD_set_ne _ _ _ _ _ (fun he => hhad (by rw [he]; exact hi))
    · split
      · rfl
      · rename_i hhad
        exact getD_set_ne _ _ _ _ _ (fun he => hhad (by rw [he]; exact hi))
  · split
    · split
      · rfl
      · rfl
    · split
      · rfl
      · rfl

/-- Claim C3 (confirmed): if, after filing the arriving in-window shard, more
than `m` source shards of its block are missing, then `receive` pushes no
rebuilt packet, keeps the block in the table in exactly its filed state, and
leaves every source shard that was already stored byte-for-byte unchanged —
for any behaviour of the external column decoder. -/
theorem rsfec_receive_unrecoverable (k m L : Nat)
    (decodeFn : List Nat → List Nat → Int × List Nat) (st : RcvState) (pkt : Pkt)
    (hoff : 0 ≤ pkt.seq - st.rcv_base)
    (hmiss : m < (rsfec_missingData k (rsfec_storedGroup k m L st pkt)).length) :
    (rsfec_receive k m L decodeFn st pkt).1.provided = st.provided ∧
    lookupGroup (rsfec_receive k m L decodeFn st pkt).1.groups
        (rsfec_groupBase k m st pkt) = some (rsfec_storedGroup k m L st pkt) ∧
    ∀ g : RecvGroup, ∀ i : Nat,
      lookupGroup st.groups (rsfec_groupBase k m st pkt) = some g →
      g.have_data.getD i false = true →
      (rsfec_storedGroup k m L st pkt).data.getD i [] = g.data.getD i [] := by
  have hnoff : ¬ (pkt.seq - st.rcv_base < 0) := by omega
  have hmne : rsfec_missingData k (rsfec_storedGroup k m L st pkt) ≠ [] := by
    intro he
    rw [he] at hmiss
    simp at hmiss
  have hcond : ¬ (rsfec_missingData k (rsfec_storedGroup k m L st pkt) ≠ [] ∧
      (rsfec_missingData k (rsfec_storedGroup k m L st pkt)).length ≤ m) := by
    intro hc
    omega
  have hall := all_eq_false_of_missing k (rsfec_storedGroup k m L st pkt) hmne
  by_cases hidx : rsfec_shardIndex k m st pkt < k
  · refine ⟨?_, ?_, fun g i hg hi => rsfec_storedGroup_preserves k m L st pkt g i hg hi⟩
    · simp only [rsfec_receive, hnoff, if_false, hidx, if_true]
    · simp only [rsfec_receive, hnoff, if_false, hidx, if_true]
      exact lookupGroup_updateGroup _ _ _
  · have hstep : (rsfec_receive k m L decodeFn st pkt)
        = ({ st with
              groups := updateGroup st.groups (rsfec_groupBase k m st pkt)
                (rsfec_storedGroup k m L st pkt)
              provided := st.provided }, false) := by
      simp only [rsfec_receive, hnoff, if_false, hidx]
      by_cases hhc : k ≤ (rsfec_storedGroup k m L st pkt).have_count
      · simp only [hhc, if_true, hcond, if_false, hall, Bool.false_eq_true]
      · simp only [hhc, if_false, hall, Bool.false_eq_true]
    refine ⟨by rw [hstep], ?_, fun g i hg hi => rsfec_storedGroup_preserves k m L st pkt g i hg hi⟩
    rw [hstep]
    exact lookupGroup_updateGroup _ _ _

/-- Witness for `rsfec_receive_unrecoverable`: `k = 3`, `m = 1`, empty
receiver state, and a parity packet for the first block; three source shards
are missing, which exceeds `m = 1`. -/
theorem rsfec_receive_unrecoverable_witness :
    (0 : Int) ≤ ({ seq := 3, timestamp := 0, buffer := [5], plen := 1, is_ctl := true } : Pkt).seq
        - ({ rcv_base := 0, groups := [], provided := [] } : RcvState).rcv_base ∧
    1 < (rsfec_missingData 3 (rsfec_storedGroup 3 1 1
        { rcv_base := 0, groups := [], provided := [] }
        { seq := 3, timestamp := 0, buffer := [5], plen := 1, is_ctl := true })).length ∧
    (rsfec_receive 3 1 1 (fun c _ => (0, c))
        { rcv_base := 0, groups := [], provided := [] }
        { seq := 3, timestamp := 0, buffer := [5], plen := 1, is_ctl := true }).1.provided
      = [] := by
  refine ⟨by decide, by decide, ?_⟩
  exact (rsfec_receive_unrecoverable 3 1 1 (fun c _ => (0, c))
    { rcv_base := 0, groups := [], provided := [] }
    { seq := 3, timestamp := 0, buffer := [5], plen := 1, is_ctl := true }
    (by decide) (by decide)).1

/-- Concrete inputs for the C5 counterexample run: an in-window packet at a
parity position (`k = 1`, `m = 1`, within-block index 1) of an empty
part_008 receiver. -/
def c5_pkt : Pkt :=
  { seq := 1, timestamp := 4, buffer := [9], plen := 1, is_ctl := true }

def c5_st8 : Rcv8State :=
  { rcv_base := 0, groups := [], provided := [], msgno := 1 }

def c5_decoder : List Nat → List Nat → Int × List Nat :=
  fun col _ => (0, col.map (fun _ => 7))

/-- Claim C5, counterexample: in the part_008 variant of
`RSFecFilter::receive`, a packet at a parity position of its block (here
`k = 1`, `m = 1`, within-block index `1 ≥ k`, in window) is returned with
`passthrough = true`, not `false` as the claim states for parity packets. -/
theorem rsfec8_receive_parity_passthrough :
    0 ≤ c5_pkt.seq - c5_st8.rcv_base ∧
    1 ≤ (c5_pkt.seq - c5_st8.rcv_base).toNat % (1 + 1) ∧
    (rsfec8_receive 1 1 1 c5_decoder c5_st8 c5_pkt).2 = true := by
  refine ⟨by decide, by decide, by decide⟩

/-- Claim C5, amended: in the rsfec.cpp `RSFecFilter::receive`, an in-window
packet is passed through (`true`) exactly when it sits at a source-data
position of its block, and consumed (`false`) at a parity position; the
part_008 variant instead returns `true` for every packet, parity included. -/
theorem rsfec_receive_passthrough_iff (k m L : Nat)
    (decodeFn : List Nat → List Nat → Int × List Nat) (st : RcvState) (pkt : Pkt)
    (st8 : Rcv8State) (pkt8 : Pkt)
    (hoff : 0 ≤ pkt.seq - st.rcv_base) :
    ((rsfec_receive k m L decodeFn st pkt).2 = true ↔
      rsfec_shardIndex k m st pkt < k) ∧
    (rsfec8_receive k m L decodeFn st8 pkt8).2 = true := by
  have hnoff : ¬ (pkt.seq - st.rcv_base < 0) := by omega
  constructor
  · by_cases hidx : rsfec_shardIndex k m st pkt < k
    · simp [rsfec_receive, hnoff, hidx]
    · simp [rsfec_receive, hnoff, hidx]
  · simp only [rsfec8_receive]
    split <;> rfl

/-- Concrete inputs for the C5 witness: a data packet at index 0 of an empty
rsfec.cpp receiver with `k = 2`, `m = 1`. -/
def c5_wpkt : Pkt :=
  { seq := 0, timestamp := 0, buffer := [1], plen := 1, is_ctl := false }

def c5_wst : RcvState :=
  { rcv_base := 0, groups := [], provided := [] }

/-- Witness for `rsfec_receive_passthrough_iff`, applying it at the concrete
inputs above. -/
theorem rsfec_receive_passthrough_iff_witness :
    0 ≤ c5_wpkt.seq - c5_wst.rcv_base ∧
    (((rsfec_receive 2 1 1 c5_decoder c5_wst c5_wpkt).2 = true ↔
        rsfec_shardIndex 2 1 c5_wst c5_wpkt < 2) ∧
      (rsfec8_receive 2 1 1 c5_decoder c5_st8 c5_pkt).2 = true) := by
  refine ⟨by decide, ?_⟩
  exact rsfec_receive_passthrough_iff 2 1 1 c5_decoder c5_wst c5_wpkt c5_st8 c5_pkt
    (by decide)

/-! ## Claim theorems: the rsfec.cpp sender -/

/-- States of the rsfec.cpp send-side group reachable from construction by
any interleaving of `feedSource` and `packControlPacket` calls (with the
timeout condition of `packControlPacket` as a free input). -/
inductive SndReach (k m L : Nat) (enc : List Nat → List Nat) : SndState → Prop
  | init : SndReach k m L enc (rsfec_initSnd k m L)
  | feed (s : SndState) (pkt : Pkt) : SndReach k m L enc s →
      SndReach k m L enc (rsfec_feedSource k m L enc s pkt)
  | pack (s : SndState) (tmo : Bool) : SndReach k m L enc s →
      SndReach k m L enc (rsfec_packControl k tmo s).1

/-- The inductive send-side invariant. -/
def SndInv (k m : Nat) (s : SndState) : Prop :=
  s.data.length = k ∧ s.parity.length = m ∧ s.collected ≤ k ∧ s.next_parity ≤ m ∧
  (0 < s.next_parity → s.collected = k ∨ s.next_parity = m)

theorem sndInv_init (k m L : Nat) : SndInv k m (rsfec_initSnd k m L) := by
  refine ⟨by simp [rsfec_initSnd], by simp [rsfec_initSnd], by simp [rsfec_initSnd],
    by simp [rsfec_initSnd], by simp [rsfec_initSnd]⟩

theorem sndInv_feed (k m L : Nat) (enc : List Nat → List Nat) (s : SndState)
    (pkt : Pkt) (h : SndInv k m s) :
    SndInv k m (rsfec_feedSource k m L enc s pkt) := by
  obtain ⟨hd, hp, hc, hn, hi⟩ := h
  unfold rsfec_feedSource SndInv
  refine ⟨?_, ?_, ?_, ?_, ?_⟩ <;>
    (repeat' (first | split | dsimp only)) <;>
    (try simp_all only [List.length_set, List.length_map, List.length_range]) <;>
    (first | omega | simp_all)

theorem sndInv_pack (k m : Nat) (tmo : Bool) (s : SndState) (h : SndInv k m s) :
    SndInv k m (rsfec_packControl k tmo s).1 := by
  obtain ⟨hd, hp, hc, hn, hi⟩ := h
  unfold rsfec_packControl SndInv
  refine ⟨?_, ?_, ?_, ?_, ?_⟩ <;>
    (repeat' (first | split | dsimp only)) <;>
    (try simp_all only [List.length_set, List.length_map, List.length_range]) <;>
    (first | omega | simp_all)

/-- Claim C6, amended: in every reachable send state, `next_parity > 0`
implies that either `collected = k` (the block is complete and its parity
computed) or `next_parity = m` (all parity of the previous block was emitted
and `packControlPacket` reset `collected` to 0 without resetting
`next_parity`); in particular `collected < k` and `next_parity < m` force
`next_parity = 0`, so parity emission never starts before `k` shards are
collected. -/
theorem rsfec_snd_invariant (k m L : Nat) (enc : List Nat → List Nat)
    (s : SndState) (h : SndReach k m L enc s) :
    (0 < s.next_parity → s.collected = k ∨ s.next_parity = m) ∧
    (s.collected < k → s.next_parity < m → s.next_parity = 0) := by
  have hinv : SndInv k m s := by
    induction h with
    | init => exact sndInv_init k m L
    | feed s pkt _ ih => exact sndInv_feed k m L enc s pkt ih
    | pack s tmo _ ih => exact sndInv_pack k m tmo s ih
  obtain ⟨_, _, _, _, hi⟩ := hinv
  refine ⟨hi, ?_⟩
  intro h1 h2
  rcases Nat.eq_zero_or_pos s.next_parity with h0 | h0
  · exact h0
  · rcases hi h0 with h3 | h3 <;> omega

/-- Witness for `rsfec_snd_invariant`: the construction-time state with
`k = 2`, `m = 1`, `L = 1` is reachable, and the invariant holds there. -/
theorem rsfec_snd_invariant_witness :
    (0 < (rsfec_initSnd 2 1 1).next_parity →
      (rsfec_initSnd 2 1 1).collected = 2 ∨ (rsfec_initSnd 2 1 1).next_parity = 1) ∧
    ((rsfec_initSnd 2 1 1).collected < 2 → (rsfec_initSnd 2 1 1).next_parity < 1 →
      (rsfec_initSnd 2 1 1).next_parity = 0) :=
  rsfec_snd_invariant 2 1 1 (fun _ => [0]) (rsfec_initSnd 2 1 1) SndReach.init

/-- The three-call trace refuting claim C6 as stated: `k = 1`, `m = 1`,
`L = 1`; feed one source packet (completing the block), emit the single
parity packet, then call `packControlPacket` once more. -/
def c6_trace : SndState :=
  (rsfec_packControl 1 false
    (rsfec_packControl 1 false
      (rsfec_feedSource 1 1 1 (fun _ => [0]) (rsfec_initSnd 1 1 1)
        { seq := 0, timestamp := 0, buffer := [3], plen := 1, is_ctl := false })).1).1

/-- Claim C6, counterexample: after the trace above, the final
`packControlPacket` call has reset `collected` to 0 but left
`next_parity = 1 > 0`, so the claimed invariant
`next_parity > 0 → collected == k` is violated in a reachable state. -/
theorem rsfec_snd_claimed_invariant_violated :
    0 < c6_trace.next_parity ∧ c6_trace.collected ≠ 1 := by
  refine ⟨by decide, by decide⟩

/-! ## FECReedSolomon sender padding (src/srtcore/fec_rs.cpp, first version)

`feedSource` stores the exact payload bytes; `encodeFECPackets` feeds the
encoder column-wise, reading byte `byte_pos` of shard `i` as
`byte_pos < sender_buffer[i].size() ? sender_buffer[i][byte_pos] : 0`. -/

/-- The data column `encodeFECPackets` extracts at byte position
`byte_pos`. -/
def fecrs_data_column (sender_buffer : List (List Nat)) (byte_pos : Nat) : List Nat :=
  sender_buffer.map (fun b => if byte_pos < b.length then b.getD byte_pos 0 else 0)

/-- Parity shards of `FECReedSolomon::encodeFECPackets`: shard `i`, position
`byte_pos` is byte `i` of the external column coder applied to the data
column. -/
def fecrs_parity_data (enc : List Nat → List Nat) (parity_shards : Nat)
    (sender_buffer : List (List Nat)) (max_packet_size : Nat) : List (List Nat) :=
  (List.range parity_shards).map (fun i =>
    (List.range max_packet_size).map (fun pos =>
      (enc (fecrs_data_column sender_buffer pos)).getD i 0))

/-- Claim C7, counterexample: `RSFecFilter::feedSource` of rsfec.cpp copies a
fixed `payloadSize()` bytes from the packet buffer; for a packet whose
payload is 1 byte (`[0x01]`) in a buffer whose next byte is `0x07`, with
`L = 2`, the stored shard is `[0x01, 0x07]`, not the zero-padded
`[0x01, 0x00]` the claim requires. -/
theorem rsfec_feedSource_no_zero_padding :
    ({ seq := 0, timestamp := 0, buffer := [1, 7], plen := 1, is_ctl := false } : Pkt).plen < 2 ∧
    ((rsfec_feedSource 2 1 2 (fun _ => [0]) (rsfec_initSnd 2 1 2)
        { seq := 0, timestamp := 0, buffer := [1, 7], plen := 1, is_ctl := false }).data.getD 0 [])
      = [1, 7] ∧
    ([1, 7] : List Nat) ≠ [1] ++ List.replicate (2 - 1) 0 := by
  refine ⟨by decide, by decide, by decide⟩

/-- Claim C7, amended: in `FECReedSolomon` (fec_rs.cpp), where the shard
length is the group's maximum packet size, the shard the encoder actually
sees for source `i` is exactly the stored payload followed by zero bytes up
to that length — short payloads never shorten the shard.  (In the rsfec.cpp
`RSFecFilter`, by contrast, `feedSource` copies `payloadSize()` raw buffer
bytes with no explicit padding.) -/
theorem fecrs_column_zero_padding (buf : List (List Nat)) (i L : Nat)
    (hi : i < buf.length) (hlen : (buf.getD i []).length ≤ L) :
    (List.range L).map (fun pos => (fecrs_data_column buf pos).getD i 0)
      = (buf.getD i []) ++ List.replicate (L - (buf.getD i []).length) 0 := by
  have hcol : ∀ pos : Nat, (fecrs_data_column buf pos).getD i 0
      = if pos < (buf.getD i []).length then (buf.getD i []).getD pos 0 else 0 := by
    intro pos
    unfold fecrs_data_column
    rw [List.getD_eq_getElem?_getD, List.getElem?_map, List.getElem?_eq_getElem hi]
    have hb : buf[i] = buf.getD i [] := (List.getD_eq_getElem buf [] hi).symm
    simp [hb]
  apply List.ext_getElem
  · simp only [List.length_map, List.length_range, List.length_append,
      List.length_replicate]
    omega
  · intro pos h1 h2
    simp only [List.length_map, List.length_range] at h1
    rw [List.getElem_map, List.getElem_range, hcol pos]
    by_cases hp : pos < (buf.getD i []).length
    · rw [if_pos hp, List.getElem_append_left hp]
      exact List.getD_eq_getElem (buf.getD i []) 0 hp
    · rw [if_neg hp, List.getElem_append_right (by omega)]
      simp

/-- Witness for `fecrs_column_zero_padding`: two buffered payloads `[1]` and
`[2,3]`, shard length 2; the first shard the encoder sees is `[1, 0]`. -/
theorem fecrs_column_zero_padding_witness :
    (0 < ([[1], [2, 3]] : List (List Nat)).length ∧
      (([[1], [2, 3]] : List (List Nat)).getD 0 []).length ≤ 2) ∧
    (List.range 2).map (fun pos => (fecrs_data_column [[1], [2, 3]] pos).getD 0 0)
      = (([[1], [2, 3]] : List (List Nat)).getD 0 [])
        ++ List.replicate (2 - (([[1], [2, 3]] : List (List Nat)).getD 0 []).length) 0 := by
  refine ⟨⟨by decide, by decide⟩, ?_⟩
  exact fecrs_column_zero_padding [[1], [2, 3]] 0 2 (by decide) (by decide)

/-! ## Claim theorems: the FECReedSolomon block table bound -/

theorem length_eraseFirstMin (gs : List (Nat × FecRsGroup)) (h : gs ≠ []) :
    (eraseFirstMin gs).length + 1 = gs.length := by
  induction gs with
  | nil => simp at h
  | cons kv rest ih =>
    unfold eraseFirstMin
    split
    · rfl
    · rename_i hall
      have hne : rest ≠ [] := by
        intro he
        subst he
        simp at hall
      have := ih hne
      simp only [List.length_cons]
      omega

theorem mem_eraseFirstMin (gs : List (Nat × FecRsGroup)) (x : Nat × FecRsGroup)
    (hx : x ∈ eraseFirstMin gs) : x ∈ gs := by
  induction gs with
  | nil => simp [eraseFirstMin] at hx
  | cons kv rest ih =>
    unfold eraseFirstMin at hx
    split at hx
    · exact List.mem_cons_of_mem kv hx
    · rcases List.mem_cons.mp hx with h1 | h1
      · exact h1 ▸ List.mem_cons_self kv rest
      · exact List.mem_cons_of_mem kv (ih h1)

theorem trimAux_length (fuel : Nat) : ∀ gs : List (Nat × FecRsGroup),
    gs.length ≤ MAX_GROUPS + fuel → (trimAux fuel gs).length ≤ MAX_GROUPS := by
  induction fuel with
  | zero =>
    intro gs h
    simpa [trimAux] using h
  | succ fuel ih =>
    intro gs h
    unfold trimAux
    split
    · rename_i hgt
      apply ih
      have hne : gs ≠ [] := by
        intro he
        subst he
        simp [MAX_GROUPS] at hgt
      have := length_eraseFirstMin gs hne
      omega
    · rename_i hle
      omega

theorem mem_trimAux (fuel : Nat) : ∀ gs : List (Nat × FecRsGroup),
    ∀ x : Nat × FecRsGroup, x ∈ trimAux fuel gs → x ∈ gs := by
  induction fuel with
  | zero =>
    intro gs x hx
    simp [trimAux] at hx
    exact hx
  | succ fuel ih =>
    intro gs x hx
    unfold trimAux at hx
    split at hx
    · exact mem_eraseFirstMin gs x (ih (eraseFirstMin gs) x hx)
    · exact hx

/-- Concrete FEC parity packet for group `g` (valid header, `k = 1` echo,
parity shard 0, one payload byte). -/
def c4_pkt (g : Nat) : CtlPkt :=
  { is_ctl := true, len := 9, ctrl_header := 0x80080000
    fec_header := (g <<< 16) ||| 1, payload := [0] }

set_option maxRecDepth 4000 in
/-- Claim C4, counterexample: starting from a freshly constructed receiver
(`last_cleanup = 0`), 65 parity packets with distinct group numbers all
arriving at time 0 leave the block table with 65 entries — the once-per-second
throttle in `cleanupOldGroups` means the `MAX_GROUPS` bound is not enforced
between cleanups. -/
theorem fecrs_table_exceeds_max_groups :
    MAX_GROUPS <
      ((List.range (MAX_GROUPS + 1)).foldl
        (fun st g => (fecrs_receive 1 1 0 st (c4_pkt g)).1)
        { groups := [], last_cleanup := 0 }).groups.length := by
  decide

/-- Claim C4, amended: whenever `cleanupOldGroups` actually runs its body
(at least one second since the previous cleanup), the resulting table holds
at most `MAX_GROUPS` groups, none of which is older than `GROUP_TIMEOUT`;
between such cleanups (throttled to once per second, and run only inside
`receive` calls) the table can grow beyond `MAX_GROUPS` and blocks can
outlive the TTL. -/
theorem fecrs_cleanup_enforces_bounds (now : Nat) (st : FecRsState)
    (h : 1000 ≤ now - st.last_cleanup) :
    ((fecrs_cleanupOldGroups now st).groups).length ≤ MAX_GROUPS ∧
    ((fecrs_cleanupOldGroups now st).groups).all
      (fun kv => now - kv.2.creation_time ≤ GROUP_TIMEOUT) = true := by
  have hg : ¬ (now - st.last_cleanup < 1000) := by omega
  unfold fecrs_cleanupOldGroups
  rw [if_neg hg]
  constructor
  · exact trimAux_length _ _ (by omega)
  · rw [List.all_eq_true]
    intro kv hkv
    have hmem := mem_trimAux _ _ kv hkv
    have hfil := List.mem_filter.mp hmem
    have := hfil.2
    simp only [decide_not, Bool.not_eq_eq_eq_not, Bool.not_true,
      decide_eq_false_iff_not, not_lt] at this
    simpa using this

/-- The concrete table for the C4 witness: one fresh and one expired
group. -/
def c4_wstate : FecRsState :=
  { groups := [(0, fecrs_freshGroup 0 1 1 0), (1, fecrs_freshGroup 5500 1 1 1)]
    last_cleanup := 0 }

/-- Witness for `fecrs_cleanup_enforces_bounds`: cleanup at time 6000 over a
table holding one fresh and one expired group. -/
theorem fecrs_cleanup_enforces_bounds_witness :
    1000 ≤ 6000 - c4_wstate.last_cleanup ∧
    (((fecrs_cleanupOldGroups 6000 c4_wstate).groups).length ≤ MAX_GROUPS ∧
      ((fecrs_cleanupOldGroups 6000 c4_wstate).groups).all
        (fun kv => 6000 - kv.2.creation_time ≤ GROUP_TIMEOUT) = true) := by
  refine ⟨by decide, ?_⟩
  exact fecrs_cleanup_enforces_bounds 6000 c4_wstate (by decide)

/-! ## Configuration checks (claim C8)

`RSFecFilter::verifyConfig` of rsfec.cpp reads the already parsed `k`,
`parity` and optional `timeout` values (`atoi` of the parameter strings; the
parser itself is outside the core).  `FECReedSolomon::verifyConfig` of
fec_rs.cpp (first version) reads `cols` (mandatory) and optional `rows`,
with `RS_SYMS = 256`. -/

/-- Model of `RSFecFilter::verifyConfig`: `none` models an absent `timeout` key. -/
def rsfec_verifyConfig (k m : Int) (timeout : Option Int) : Bool :=
  if k ≤ 0 ∨ m ≤ 0 then false
  else if 255 < k + m then false
  else
    match timeout with
    | some t => if t < 0 then false else true
    | none => true

/-- Model of `FECReedSolomon::verifyConfig` (first version in fec_rs.cpp): `none`
models an absent (empty) parameter. -/
def fecrs_verifyConfig (cols rows : Option Int) : Bool :=
  match cols with
  | none => false
  | some c =>
    if c < 1 ∨ 32 < c then false
    else
      match rows with
      | none => true
      | some r =>
        if r < 1 ∨ 16 < r then false
        else if 256 < c + r then false
        else true

/-- Claim C8, counterexample: a configuration with `k = 1`, `m = 1` and
`timeout = -1` is rejected by `RSFecFilter::verifyConfig` although
`k ≥ 1`, `m ≥ 1` and `k + m ≤ 255`; and `cols = 100`, `rows = 1` is rejected
by `FECReedSolomon::verifyConfig` although `100 + 1 ≤ 255`.  So "fails iff
`k < 1 ∨ m < 1 ∨ k + m > 255`" does not hold. -/
theorem verifyConfig_not_iff :
    (rsfec_verifyConfig 1 1 (some (-1)) = false ∧
      ¬ ((1 : Int) < 1 ∨ (1 : Int) < 1 ∨ 255 < (1 : Int) + 1)) ∧
    (fecrs_verifyConfig (some 100) (some 1) = false ∧
      ¬ ((100 : Int) < 1 ∨ (1 : Int) < 1 ∨ 255 < (100 : Int) + 1)) := by
  refine ⟨⟨by decide, by decide⟩, ⟨by decide, by decide⟩⟩

/-- Claim C8, amended: `RSFecFilter::verifyConfig` fails iff `k ≤ 0`, or
`m ≤ 0`, or `k + m > 255`, or a negative `timeout` is supplied;
`FECReedSolomon::verifyConfig` fails iff `cols` is absent, outside `1..32`,
or `rows` is supplied outside `1..16` (the `cols + rows > 256` guard being
unreachable below those bounds).  Both reject `k = 200`, `m = 100`. -/
theorem verifyConfig_characterization :
    (∀ k m : Int, ∀ t : Option Int,
      rsfec_verifyConfig k m t = false ↔
        (k ≤ 0 ∨ m ≤ 0 ∨ 255 < k + m ∨ ∃ tv, t = some tv ∧ tv < 0)) ∧
    (∀ c r : Option Int,
      fecrs_verifyConfig c r = false ↔
        (c = none ∨ ∃ cv, c = some cv ∧ (cv < 1 ∨ 32 < cv ∨
          ∃ rv, r = some rv ∧ (rv < 1 ∨ 16 < rv ∨ 256 < cv + rv)))) ∧
    rsfec_verifyConfig 200 100 none = false ∧
    fecrs_verifyConfig (some 200) (some 100) = false := by
  refine ⟨?_, ?_, by decide, by decide⟩
  · intro k m t
    cases t with
    | none =>
      unfold rsfec_verifyConfig
      split_ifs <;> simp_all
      omega
    | some tv =>
      unfold rsfec_verifyConfig
      split_ifs <;> simp_all <;> omega
  · intro c r
    cases c with
    | none => simp [fecrs_verifyConfig]
    | some cv =>
      cases r with
      | none =>
        unfold fecrs_verifyConfig
        dsimp only
        split_ifs <;> simp_all
      | some rv =>
        unfold fecrs_verifyConfig
        dsimp only
        split_ifs <;> simp_all <;> omega

/-! ## Declared ARQ levels (claim C9) -/

/-- The `SRT_ARQLevel` enumeration of packetfilter_api.h. -/
inductive SRT_ARQLevel where
  | never
  | onreq
  | always
  deriving DecidableEq, Repr

/-- The RS-FEC filter classes declared in the repository headers. -/
inductive RsFecVariant where
  | rsFecFilter      -- RSFecFilter, src/srtcore/rsfec.h line 42
  | rsfecBlobFilter  -- RSFECFilter, src/srtcore/rsfec.h line 196 / part_003
  | fecReedSolomon   -- FECReedSolomon, fec_rs.h (both versions)
  deriving DecidableEq, Repr

/-- The `arqLevel()` override each class declares. -/
def arqLevel : RsFecVariant → SRT_ARQLevel
  | .rsFecFilter => .never
  | .rsfecBlobFilter => .onreq
  | .fecReedSolomon => .onreq

/-- Claim C9, counterexample: `RSFecFilter::arqLevel` (rsfec.h line 42)
returns `SRT_ARQ_NEVER`, not `SRT_ARQ_ONREQ`, so not every RS-FEC filter
declares `AtMostOnRequest`. -/
theorem arqLevel_rsFecFilter_never :
    arqLevel RsFecVariant.rsFecFilter = SRT_ARQLevel.never ∧
    arqLevel RsFecVariant.rsFecFilter ≠ SRT_ARQLevel.onreq := by
  refine ⟨by decide, by decide⟩

/-- Claim C9, amended: every RS-FEC filter class except the rsfec.h
`RSFecFilter` (which declares `SRT_ARQ_NEVER`) declares `SRT_ARQ_ONREQ`
(AtMostOnRequest). -/
theorem arqLevel_onreq_except_rsFecFilter (v : RsFecVariant)
    (h : v ≠ RsFecVariant.rsFecFilter) :
    arqLevel v = SRT_ARQLevel.onreq := by
  cases v with
  | rsFecFilter => exact absurd rfl h
  | rsfecBlobFilter => rfl
  | fecReedSolomon => rfl

/-- Witness for `arqLevel_onreq_except_rsFecFilter` at the `RSFECFilter`
blob-mode class. -/
theorem arqLevel_onreq_except_rsFecFilter_witness :
    RsFecVariant.rsfecBlobFilter ≠ RsFecVariant.rsFecFilter ∧
    arqLevel RsFecVariant.rsfecBlobFilter = SRT_ARQLevel.onreq := by
  refine ⟨by decide, ?_⟩
  exact arqLevel_onreq_except_rsFecFilter RsFecVariant.rsfecBlobFilter (by decide)

/-! ## rs_decode2 frame condition (claim C10) -/

/-- Folding conditional `List.set` updates over indices that avoid `i`
leaves slot `i` unchanged. -/
theorem foldl_set_preserves (cond : Nat → Prop) [DecidablePred cond]
    (f : Nat → Option (List Nat)) :
    ∀ (idxs : List Nat) (l : List (Option (List Nat))) (i : Nat) (s : List Nat),
      i ∉ idxs → l.getD i none = some s →
      (idxs.foldl (fun acc j => if cond j then acc.set j (f j) else acc) l).getD i none
        = some s := by
  intro idxs
  induction idxs with
  | nil =>
    intro l i s _ hp
    exact hp
  | cons j t ih =>
    intro l i s hni hp
    have hij : j ≠ i := by
      intro he
      exact hni (he ▸ List.mem_cons_self j t)
    rw [List.foldl_cons]
    apply ih _ i s (fun hmem => hni (List.mem_cons_of_mem j hmem))
    split
    · rw [List.getD_eq_getElem?_getD, List.getElem?_set_ne hij,
        ← List.getD_eq_getElem?_getD]
      exact hp
    · exact hp

/-- Claim C10 (confirmed): `rs_decode2` never changes a shard that is
present (non-null) at entry: whatever the return status, every present slot
holds exactly its original bytes afterwards, and only slots that were null
can have been assigned. -/
theorem rs_decode2_preserves_present (k n L : Nat)
    (shards : List (Option (List Nat))) (i : Nat) (s : List Nat)
    (hp : shards.getD i none = some s) :
    ((rs_decode2 k n shards L).2).getD i none = some s := by
  have hnm : i ∉ (List.range n).filter (fun idx => shards.getD idx none = none) := by
    intro hmem
    have h2 := (List.mem_filter.mp hmem).2
    rw [hp] at h2
    simp at h2
  simp only [rs_decode2]
  split
  · exact hp
  · split
    · exact hp
    · split
      · exact hp
      · split
        · exact foldl_set_preserves _ _ _ _ i s hnm hp
        · split
          · exact foldl_set_preserves _ _ _ _ i s hnm hp
          · exact hp

/-- Witness for `rs_decode2_preserves_present`: the decode run of the C1
failing input preserves the present shard 1. -/
theorem rs_decode2_preserves_present_witness :
    (([none, some [1], some [2]] : List (Option (List Nat))).getD 1 none = some [1]) ∧
    ((rs_decode2 2 3 [none, some [1], some [2]] 1).2).getD 1 none = some [1] := by
  refine ⟨by decide, ?_⟩
  exact rs_decode2_preserves_present 2 3 1 [none, some [1], some [2]] 1 [1] (by decide)

end RsFec
